import Mathlib

/-!
Shallow embedding of `MDSynthesis/Core/Files.py` (the synchronized container
state file: `File`, `ContainerFile`, `SimFile`).

Tables are modelled as Lean lists of rows.  PyTables tables are mutable
objects that can be dropped and recreated (`table.remove()` followed by
`create_table`); to make "drop and recreate" observable we pair the row list
with a `generation` counter that is bumped exactly when the table object is
replaced by a fresh one.  Python `str` values are Lean `String`s; a Python
`set` of strings is determinized as the duplicate-free list `List.dedup`
(set iteration order is unspecified in Python, and no property below depends
on the chosen order); a Python `dict` is an association list whose keys are
unique (`(·.map Prod.fst).Nodup` where a property needs it).
-/

namespace MDS

/-- The `tags` table: one `tag` string per row (`ContainerFile._Tags`).
`generation` counts how many times the table object was dropped and
recreated via `table.remove()` + `create_table`. -/
structure TagsTable where
  generation : Nat
  rows : List String
  deriving Repr, DecidableEq

/-- The `categories` table: one (`category`, `value`) string pair per row
(`ContainerFile._Categories`), with the same `generation` counter. -/
structure CatsTable where
  generation : Nat
  rows : List (String × String)
  deriving Repr, DecidableEq

/-- One row of the `meta` table (`ContainerFile._Meta`). -/
structure MetaRow where
  uuid : String
  name : String
  container : String
  location : String
  deriving Repr, DecidableEq

/-! ### Row deletion (`del_tags` / `del_categories`, non-purge branch)

The source builds `rowlist` by iterating the table in row order and appending
`row.nrow` whenever the row matches one of the given strings, sorts it, and
then calls `table.remove_row(i - j)` where `j` counts rows already removed:

    rowlist = list()
    for row in table:
        for tag in tags:
            if (row['tag'] == tag):
                rowlist.append(row.nrow)
    ...
    rowlist.sort()
    j = 0
    for i in rowlist:
        table.remove_row(i-j)
        j=j+1

`tags` is a Python set (distinct strings), so each row index is appended at
most once, and the inner loop is a membership test. -/

/-- Indices (`row.nrow`, starting at `n`) of the rows satisfying `p`, in
table iteration order. -/
def matchIndicesFrom (p : α → Bool) (rows : List α) (n : Nat) : List Nat :=
  match rows with
  | [] => []
  | r :: rs =>
    if p r then n :: matchIndicesFrom p rs (n + 1)
    else matchIndicesFrom p rs (n + 1)

/-- Indices of the rows satisfying `p` (row numbering starts at 0). -/
def matchIndices (p : α → Bool) (rows : List α) : List Nat :=
  matchIndicesFrom p rows 0

/-- One `table.remove_row(i - j)` step: the state is the current row list and
the count `j` of rows already removed. -/
def removeStep (acc : List α × Nat) (i : Nat) : List α × Nat :=
  (acc.1.eraseIdx (i - acc.2), acc.2 + 1)

/-- The deletion loop: remove the rows at the (original, ascending) indices
`idxs`, shifting each index down by the number of rows already removed. -/
def removeRows (rows : List α) (idxs : List Nat) : List α :=
  (idxs.foldl removeStep (rows, 0)).1

/-- Python `rowlist.sort()` on a list of row indices (ascending). -/
def sortIdxs (idxs : List Nat) : List Nat :=
  List.insertionSort (· ≤ ·) idxs

/-- Embeds `ContainerFile.del_tags(self, *tags, all=purge)`. -/
def del_tags (t : TagsTable) (tags : List String) (purge : Bool) : TagsTable :=
  if purge then
    -- table.remove(); table = create_table('/', 'tags', ...)
    { generation := t.generation + 1, rows := [] }
  else
    -- tags = set([ str(tag) for tag in tags ])
    let tagset := tags.dedup
    -- get matching rows
    let rowlist := sortIdxs (matchIndices (fun r => decide (r ∈ tagset)) t.rows)
    -- separate condition in case all rows will be removed (PyTables limitation)
    if rowlist.length = t.rows.length then
      { generation := t.generation + 1, rows := [] }
    else
      { t with rows := removeRows t.rows rowlist }

/-- Embeds `ContainerFile.del_categories(self, *categories, all=purge)`;
matching is on the `category` (key) column. -/
def del_categories (t : CatsTable) (keys : List String) (purge : Bool) : CatsTable :=
  if purge then
    { generation := t.generation + 1, rows := [] }
  else
    let keyset := keys.dedup
    let rowlist := sortIdxs (matchIndices (fun r : String × String => decide (r.1 ∈ keyset)) t.rows)
    if rowlist.length = t.rows.length then
      { generation := t.generation + 1, rows := [] }
    else
      { t with rows := removeRows t.rows rowlist }

/-! ### `add_tags` -/

/-- Embeds `ContainerFile.add_tags(self, *tags)`:

    tags = set([ str(tag) for tag in tags ])
    tags_present = [tag for row in table for tag in tags if row['tag'] == tag]
    tags = list(tags - set(tags_present))
    for tag in tags: append

`tags - set(tags_present)` is exactly the given tags that occur in no row. -/
def add_tags (t : TagsTable) (tags : List String) : TagsTable :=
  let tagset := tags.dedup
  let residual := tagset.filter (fun tag => decide (tag ∉ t.rows))
  { t with rows := t.rows ++ residual }

/-! ### `add_categories` -/

/-- The row-update pass of `ContainerFile.add_categories`:

    for row in table:
        for key in categories.keys():
            if (row['category'] == key):
                row['value'] = str(categories[key]); row.update()
                categories.pop(key)

For each table row in order, if the pending input mapping still holds the
row's key, the row's value is overwritten in place and that key is popped
from the pending mapping (a dict holds each key once, so `pop` removes the
single entry with that key).  Returns the updated rows and the remaining
pending entries. -/
def updatePass : List (String × String) → List (String × String) →
    List (String × String) × List (String × String)
  | [], pending => ([], pending)
  | row :: rest, pending =>
    match pending.find? (fun c => decide (row.1 = c.1)) with
    | some c =>
      let r := updatePass rest (pending.filter (fun c2 => decide (c2.1 ≠ c.1)))
      ((row.1, c.2) :: r.1, r.2)
    | none =>
      let r := updatePass rest pending
      (row :: r.1, r.2)

/-- Embeds `ContainerFile.add_categories(self, **categories)`: update matching
rows in place, then append the remaining (new) keys as fresh rows. -/
def add_categories (t : CatsTable) (cats : List (String × String)) : CatsTable :=
  let r := updatePass t.rows cats
  { t with rows := r.1 ++ r.2 }

/-! ### `create` and the read accessors -/

/-- The full table set of a container state file. -/
structure ContainerTables where
  meta : List MetaRow
  coordinator : List (Option String)
  tags : TagsTable
  categories : CatsTable
  deriving Repr, DecidableEq

/-- Embeds `ContainerFile.create(self, classname, **kwargs)`.  `uuid` stands
for the freshly generated `str(uuid4())` (a random value, passed in as a
parameter of the model); `location` for `os.path.dirname(self.filename)`.
The tags loop appends one row per element of the given list, as written
(no deduplication happens in `create`); the categories loop appends one row
per entry of the given dict. -/
def ContainerFile_create (uuid classname : String) (name : Option String)
    (location : String) (coordinator : Option String)
    (tags : List String) (categories : List (String × String)) : ContainerTables :=
  { meta := [{ uuid := uuid, name := name.getD classname, container := classname,
               location := location }]
  , coordinator := [coordinator]
  , tags := { generation := 0, rows := tags }
  , categories := { generation := 0, rows := categories } }

/-- Embeds `ContainerFile.get_tags`: `[ x['tag'] for x in table.iterrows() ]`. -/
def get_tags (c : ContainerTables) : List String :=
  c.tags.rows

/-- Python dict construction `{ k: v for (k, v) in rows }` in iteration
order: a later entry with an already-present key overwrites its value in
place, otherwise the entry is appended. -/
def dictOfPairs (rows : List (String × String)) : List (String × String) :=
  rows.foldl
    (fun d p =>
      if d.any (fun q => decide (q.1 = p.1)) then
        d.map (fun q => if q.1 = p.1 then p else q)
      else d ++ [p])
    []

/-- Embeds `ContainerFile.get_categories`:
`{ x['category']: x['value'] for x in table.iterrows() }`. -/
def get_categories (c : ContainerTables) : List (String × String) :=
  dictOfPairs c.categories.rows

/-! ### Python errors and the access-scope decorators -/

/-- The Python exceptions relevant to this module. `opFailure` stands for an
arbitrary exception raised inside a wrapped operation. -/
inductive PyError where
  | schemaViolation
  | nameError (n : String)
  | attributeError (n : String)
  | opFailure
  deriving Repr, DecidableEq

/-- Which lock the wrapper acquired on the open handle. -/
inductive LockKind where
  | shared
  | exclusive
  deriving Repr, DecidableEq

/-- Observable outcome of running a wrapped operation through one of the
access-scope decorators: the operation's result (or propagated exception),
whether the file handle is still open when control leaves the wrapper, and
the lock that was taken. -/
structure ScopeResult (α : Type) where
  result : Except PyError α
  handleOpen : Bool
  lockTaken : LockKind
  deriving Repr

/-- Embeds the `inner` closure of `ContainerFile._read`:

    self.handle = tables.open_file(self.filename, 'r')   -- handle open
    self._shlock()                                        -- shared lock
    out = func(self, *args, **kwargs)
    self.handle.close()                                   -- only after func returns
    return out

There is no try/finally: when `func` raises, the exception propagates out of
`inner` before the `self.handle.close()` line is reached, so the handle stays
open; when `func` returns normally the handle is closed and `out` returned. -/
def readScope (op : Except PyError α) : ScopeResult α :=
  match op with
  | .ok v => { result := .ok v, handleOpen := false, lockTaken := .shared }
  | .error e => { result := .error e, handleOpen := true, lockTaken := .shared }

/-- Embeds the `inner` closure of `ContainerFile._write` (same shape as
`_read`, with `tables.open_file(self.filename, 'a')` and `self._exlock()`). -/
def writeScope (op : Except PyError α) : ScopeResult α :=
  match op with
  | .ok v => { result := .ok v, handleOpen := false, lockTaken := .exclusive }
  | .error e => { result := .error e, handleOpen := true, lockTaken := .exclusive }

/-! ### Fixed-width column enforcement (spec §6 storage-engine interface)

The column widths are declared in `src` (`tag = tables.StringCol(36)`), but
what the storage engine does with an over-wide value happens inside the
external `tables` library, not in this repository.  -/

/-- Width of the `tag` column: `tables.StringCol(36)` in `ContainerFile._Tags`. -/
def tagWidth : Nat := 36

/-- Modelled from the spec: the storage-engine interface of §6 together with
§3/§7 — "maximum length bounded by the fixed string column width (original:
36 characters) — values exceeding this must fail explicitly rather than
silently truncate", "`SchemaViolation` (string exceeds fixed width)".  The
behaviour of `tables.StringCol` on an over-wide value is code of the external
PyTables engine, absent from `src`, so appending a row is modelled as the
spec's contract: accept a value within the column width, fail with
`SchemaViolation` otherwise.  The error carries the table rows as they stand
when the append fails (no rollback of earlier appends). -/
def appendTagChecked (rows : List String) (tag : String) :
    Except (PyError × List String) (List String) :=
  if tag.length ≤ tagWidth then .ok (rows ++ [tag])
  else .error (.schemaViolation, rows)

/-- Variant of `add_tags` with the spec-modelled width-checking append loop: same
residual computation as `add_tags`, but each append may fail. -/
def add_tags_checked (t : TagsTable) (tags : List String) :
    Except (PyError × List String) TagsTable :=
  let tagset := tags.dedup
  let residual := tagset.filter (fun tag => decide (tag ∉ t.rows))
  match residual.foldlM appendTagChecked t.rows with
  | .ok rows => .ok { t with rows := rows }
  | .error e => .error e

/-! ### `SimFile` (the specialized schema)

`SimFile.__init__` reads

    super(SimFile, self).__init__(location, logger=logger, classname='Sim', **kwargs)

inside a body whose bound names are only `self`, `filename`, `logger` and
the `kwargs` dict — `location` is not among them, so evaluating the argument
raises `NameError` before the superclass constructor (and hence any file
open/create) runs.  `SimFile.create` reads

    super(SimFile, self).create(classname, **kwargs)
    self.handle = tables.open_file(self.filename, 'a')
    self.exlock()

and `exlock` is not an attribute of the instance (the locking methods are
`_shlock`/`_exlock`/`_unlock`), so the attribute lookup raises
`AttributeError` after the handle was reopened, leaving it open.  Name and
attribute lookup are modelled explicitly against the sets of names the
source binds. -/

/-- The local names bound in the body of `SimFile.__init__`: its parameters. -/
def simFileInitScope : List String := ["self", "filename", "logger", "kwargs"]

/-- Python name resolution: an identifier that is not bound raises `NameError`. -/
def lookupName (scope : List String) (x : String) : Except PyError Unit :=
  if x ∈ scope then .ok () else .error (.nameError x)

/-- The attributes resolvable on a `SimFile` instance: instance attributes
set by `File.__init__` plus the methods and nested classes of `SimFile`,
`ContainerFile` and `File`. -/
def simFileAttrs : List String :=
  ["filename", "handle", "logger",
   "_shlock", "_exlock", "_unlock", "_check_existence",
   "create", "_read", "_write",
   "get_tags", "add_tags", "del_tags",
   "get_categories", "add_categories", "del_categories",
   "_open_r", "_open_w", "_close",
   "_Meta", "_Coordinator", "_Tags", "_Categories",
   "UniverseTopology", "UniverseTrajectory", "Selection"]

/-- Python attribute resolution on a `SimFile` instance. -/
def lookupAttr (x : String) : Except PyError Unit :=
  if x ∈ simFileAttrs then .ok () else .error (.attributeError x)

/-- Embeds `SimFile.__init__(self, filename, logger, **kwargs)`.  The boolean
records whether any file was opened or created before control left the
constructor. -/
def simFile_init (filename : String) (logger : Option String) :
    Except PyError Unit × Bool :=
  match lookupName simFileInitScope "location" with
  | .error e => (.error e, false)
  | .ok _ =>
    -- unreachable: `location` is unbound; the superclass constructor
    -- (existence check, possible `create`) would only run from here on
    (.ok (), true)

/-- Embeds `SimFile.create(self, classname, **kwargs)`: the base
`ContainerFile.create` runs to completion (closing its handle), the handle is
then reopened in append mode, and `self.exlock()` is looked up.  Returns the
operation outcome, whether the reopened handle is still open on exit, and the
tables written by the base create. -/
def simFile_create (uuid classname : String) (name : Option String)
    (location : String) (coordinator : Option String)
    (tags : List String) (categories : List (String × String)) :
    Except PyError Unit × Bool × ContainerTables :=
  let base := ContainerFile_create uuid classname name location coordinator tags categories
  -- self.handle = tables.open_file(self.filename, 'a')   -- handle open
  match lookupAttr "exlock" with
  | .error e => (.error e, true, base)
  | .ok _ =>
    -- unreachable: `exlock` is not an attribute; the universes group would
    -- be created and the handle closed from here on
    (.ok (), false, base)

/-! ## Lemmas about the deletion algorithm -/

theorem matchIndicesFrom_ge (p : α → Bool) (rows : List α) :
    ∀ n i, i ∈ matchIndicesFrom p rows n → n ≤ i := by
  induction rows with
  | nil => intro n i h; simp [matchIndicesFrom] at h
  | cons r rs ih =>
    intro n i h
    simp only [matchIndicesFrom] at h
    by_cases hp : p r
    · rw [if_pos hp] at h
      rcases List.mem_cons.mp h with h1 | h2
      · exact h1 ▸ Nat.le_refl n
      · exact Nat.le_trans (Nat.le_succ n) (ih (n + 1) i h2)
    · rw [if_neg hp] at h
      exact Nat.le_trans (Nat.le_succ n) (ih (n + 1) i h)

theorem matchIndicesFrom_sorted (p : α → Bool) (rows : List α) :
    ∀ n, List.Pairwise (· < ·) (matchIndicesFrom p rows n) := by
  induction rows with
  | nil => intro n; simp [matchIndicesFrom]
  | cons r rs ih =>
    intro n
    simp only [matchIndicesFrom]
    by_cases hp : p r
    · rw [if_pos hp]
      refine List.pairwise_cons.mpr ⟨?_, ih (n + 1)⟩
      intro i hi
      exact Nat.lt_of_lt_of_le (Nat.lt_succ_self n) (matchIndicesFrom_ge p rs (n + 1) i hi)
    · rw [if_neg hp]; exact ih (n + 1)

theorem matchIndicesFrom_length (p : α → Bool) (rows : List α) :
    ∀ n, (matchIndicesFrom p rows n).length = rows.countP p := by
  induction rows with
  | nil => intro n; simp [matchIndicesFrom]
  | cons r rs ih =>
    intro n
    simp only [matchIndicesFrom, List.countP_cons]
    by_cases hp : p r
    · rw [if_pos hp]; simp [ih, hp]
    · rw [if_neg hp]; simp [ih, hp]

theorem matchIndicesFrom_nil_of_none (p : α → Bool) (rows : List α)
    (h : ∀ r ∈ rows, p r = false) : ∀ n, matchIndicesFrom p rows n = [] := by
  induction rows with
  | nil => intro n; rfl
  | cons r rs ih =>
    intro n
    simp only [matchIndicesFrom]
    rw [if_neg (by simp [h r (List.mem_cons_self r rs)])]
    exact ih (fun x hx => h x (List.mem_cons_of_mem r hx)) (n + 1)

/-- While the deletion loop works on indices strictly above the current
shift register, the head row is never touched. -/
theorem foldl_removeStep_cons (idxs : List Nat) :
    ∀ (rows : List α) (r : α) (j : Nat),
      List.Pairwise (· < ·) idxs → (∀ i ∈ idxs, j < i) →
      (idxs.foldl removeStep (r :: rows, j)).1
        = r :: (idxs.foldl removeStep (rows, j + 1)).1 := by
  induction idxs with
  | nil => intros; rfl
  | cons i idxs ih =>
    intro rows r j hs hgt
    have hj : j < i := hgt i (List.mem_cons_self i idxs)
    have h1 : i - j = (i - (j + 1)) + 1 := by omega
    simp only [List.foldl_cons, removeStep, h1, List.eraseIdx_cons_succ]
    have hs' := List.pairwise_cons.mp hs
    exact ih (rows.eraseIdx (i - (j + 1))) r (j + 1) hs'.2
      (fun i' hi' => Nat.lt_of_le_of_lt (Nat.succ_le_of_lt hj) (hs'.1 i' hi'))

/-- The deletion loop run on the matching row indices removes exactly the
matching rows: the index-shift correction makes the fold compute `filter`. -/
theorem foldl_removeStep_matchIndices (p : α → Bool) (rows : List α) :
    ∀ j, ((matchIndicesFrom p rows j).foldl removeStep (rows, j)).1
      = rows.filter (fun r => !p r) := by
  induction rows with
  | nil => intro j; simp [matchIndicesFrom]
  | cons r rs ih =>
    intro j
    simp only [matchIndicesFrom]
    by_cases hp : p r
    · rw [if_pos hp]
      simp only [List.foldl_cons, removeStep, Nat.sub_self, List.eraseIdx_cons_zero]
      rw [ih (j + 1)]
      simp [List.filter_cons, hp]
    · rw [if_neg hp]
      rw [foldl_removeStep_cons _ _ _ _ (matchIndicesFrom_sorted p rs (j + 1))
        (fun i hi => Nat.lt_of_lt_of_le (Nat.lt_succ_self j) (matchIndicesFrom_ge p rs (j + 1) i hi))]
      rw [ih (j + 1)]
      simp [List.filter_cons, hp]

theorem removeRows_matchIndices (p : α → Bool) (rows : List α) :
    removeRows rows (matchIndices p rows) = rows.filter (fun r => !p r) :=
  foldl_removeStep_matchIndices p rows 0

/-- Sorting the row list is the identity here: the matching indices are collected
in ascending row order. -/
theorem sortIdxs_eq_of_sorted (idxs : List Nat) (h : List.Pairwise (· < ·) idxs) :
    sortIdxs idxs = idxs :=
  List.Sorted.insertionSort_eq (h.imp Nat.le_of_lt)

theorem sortIdxs_matchIndices (p : α → Bool) (rows : List α) :
    sortIdxs (matchIndices p rows) = matchIndices p rows :=
  sortIdxs_eq_of_sorted _ (matchIndicesFrom_sorted p rows 0)

/-- The non-purge branch of `del_tags`, when some row does not match: the
per-row deletion path runs and removes exactly the matching rows. -/
theorem del_tags_nonpurge (t : TagsTable) (tags : List String)
    (h : ∃ r ∈ t.rows, r ∉ tags) :
    del_tags t tags false
      = { t with rows := t.rows.filter (fun r => decide (r ∉ tags)) } := by
  obtain ⟨r0, hr0, hr0n⟩ := h
  have hp : (fun r => decide (r ∈ tags.dedup)) r0 = false := by
    simp [List.mem_dedup, hr0n]
  have hlen : ¬ (sortIdxs (matchIndices (fun r => decide (r ∈ tags.dedup)) t.rows)).length
      = t.rows.length := by
    rw [sortIdxs_matchIndices, matchIndices, matchIndicesFrom_length]
    intro hl
    have := List.countP_eq_length.mp hl r0 hr0
    exact hr0n (List.mem_dedup.mp (of_decide_eq_true this))
  simp only [del_tags, Bool.false_eq_true, if_false]
  rw [if_neg hlen, sortIdxs_matchIndices, removeRows_matchIndices]
  congr 1
  refine List.filter_congr (fun a _ => ?_)
  simp [List.mem_dedup]

/-- Same for `del_categories` (matching on the key column). -/
theorem del_categories_nonpurge (t : CatsTable) (keys : List String)
    (h : ∃ r ∈ t.rows, r.1 ∉ keys) :
    del_categories t keys false
      = { t with rows := t.rows.filter (fun r => decide (r.1 ∉ keys)) } := by
  obtain ⟨r0, hr0, hr0n⟩ := h
  have hp : (fun r : String × String => decide (r.1 ∈ keys.dedup)) r0 = false := by
    simp [List.mem_dedup, hr0n]
  have hlen : ¬ (sortIdxs (matchIndices
      (fun r : String × String => decide (r.1 ∈ keys.dedup)) t.rows)).length
      = t.rows.length := by
    rw [sortIdxs_matchIndices, matchIndices, matchIndicesFrom_length]
    intro hl
    have := List.countP_eq_length.mp hl r0 hr0
    exact hr0n (List.mem_dedup.mp (of_decide_eq_true this))
  simp only [del_categories, Bool.false_eq_true, if_false]
  rw [if_neg hlen, sortIdxs_matchIndices, removeRows_matchIndices]
  congr 1
  refine List.filter_congr (fun a _ => ?_)
  simp [List.mem_dedup]

theorem removeRows_nil (rows : List α) : removeRows rows [] = rows := rfl

theorem sortIdxs_nil : sortIdxs [] = [] := rfl

/-- When every row matches, `del_tags` takes the remove-all branch (for any
value of the purge flag) and replaces the table by a fresh empty one. -/
theorem del_tags_all (t : TagsTable) (tags : List String) (purge : Bool)
    (h : (matchIndices (fun r => decide (r ∈ tags.dedup)) t.rows).length = t.rows.length) :
    del_tags t tags purge = { generation := t.generation + 1, rows := [] } := by
  cases purge
  · simp only [del_tags, Bool.false_eq_true, if_false, sortIdxs_matchIndices]
    rw [if_pos h]
  · simp [del_tags]

theorem del_categories_all (t : CatsTable) (keys : List String) (purge : Bool)
    (h : (matchIndices (fun r : String × String => decide (r.1 ∈ keys.dedup)) t.rows).length
      = t.rows.length) :
    del_categories t keys purge = { generation := t.generation + 1, rows := [] } := by
  cases purge
  · simp only [del_categories, Bool.false_eq_true, if_false, sortIdxs_matchIndices]
    rw [if_pos h]
  · simp [del_categories]

/-- Deleting tags none of which is present never changes the row count
(on an empty table the remove-all branch recreates an empty table; on a
non-empty table the deletion loop runs over an empty index list). -/
theorem del_tags_no_match (t : TagsTable) (tags : List String)
    (h : ∀ x ∈ tags, x ∉ t.rows) :
    (del_tags t tags false).rows.length = t.rows.length := by
  have hmi : matchIndices (fun r => decide (r ∈ tags.dedup)) t.rows = [] :=
    matchIndicesFrom_nil_of_none _ _
      (fun r hr => by
        simp only [decide_eq_false_iff_not]
        intro hmem
        exact h r (List.mem_dedup.mp hmem) hr) 0
  simp only [del_tags, Bool.false_eq_true, if_false, sortIdxs_matchIndices, hmi, sortIdxs_nil]
  by_cases hz : t.rows.length = 0
  · rw [if_pos (by simp [hz])]
    simp [hz]
  · rw [if_neg (by simpa using fun hw => hz hw.symm)]
    rw [removeRows_nil]

theorem del_categories_no_match (t : CatsTable) (keys : List String)
    (h : ∀ x ∈ keys, ∀ r ∈ t.rows, r.1 ≠ x) :
    (del_categories t keys false).rows.length = t.rows.length := by
  have hmi : matchIndices (fun r : String × String => decide (r.1 ∈ keys.dedup)) t.rows = [] :=
    matchIndicesFrom_nil_of_none _ _
      (fun r hr => by
        simp only [decide_eq_false_iff_not]
        intro hmem
        exact h r.1 (List.mem_dedup.mp hmem) r hr rfl) 0
  simp only [del_categories, Bool.false_eq_true, if_false, sortIdxs_matchIndices, hmi, sortIdxs_nil]
  by_cases hz : t.rows.length = 0
  · rw [if_pos (by simp [hz])]
    simp [hz]
  · rw [if_neg (by simpa using fun hw => hz hw.symm)]
    rw [removeRows_nil]

/-- A non-purge delete on an empty table hits the remove-all branch:
zero matching rows equal the zero total rows, so the table object is dropped
and recreated even though nothing matched. -/
theorem del_tags_empty (t : TagsTable) (tags : List String) (h : t.rows = []) :
    del_tags t tags false = { generation := t.generation + 1, rows := [] } :=
  del_tags_all t tags false (by rw [h]; rfl)

theorem del_categories_empty (t : CatsTable) (keys : List String) (h : t.rows = []) :
    del_categories t keys false = { generation := t.generation + 1, rows := [] } :=
  del_categories_all t keys false (by rw [h]; rfl)

/-! ## Lemmas about `add_tags` -/

theorem add_tags_nodup (t : TagsTable) (tags : List String) (h : t.rows.Nodup) :
    (add_tags t tags).rows.Nodup := by
  show (t.rows ++ tags.dedup.filter (fun tag => decide (tag ∉ t.rows))).Nodup
  refine List.Nodup.append h (List.Nodup.filter _ (List.nodup_dedup tags)) ?_
  intro a ha hb
  rcases List.mem_filter.mp hb with ⟨-, hdec⟩
  simp only [decide_eq_true_eq] at hdec
  exact hdec ha

theorem add_tags_foldl_nodup (calls : List (List String)) :
    ∀ t : TagsTable, t.rows.Nodup → (calls.foldl add_tags t).rows.Nodup := by
  induction calls with
  | nil => intro t h; exact h
  | cons c cs ih => intro t h; exact ih _ (add_tags_nodup t c h)

theorem add_tags_idem (t : TagsTable) (tags : List String) :
    add_tags (add_tags t tags) tags = add_tags t tags := by
  obtain ⟨g, rows⟩ := t
  simp only [add_tags, TagsTable.mk.injEq, true_and]
  have hnil : tags.dedup.filter
      (fun tag => decide (tag ∉ rows ++ tags.dedup.filter (fun tag => decide (tag ∉ rows)))) = [] := by
    rw [List.filter_eq_nil_iff]
    intro a ha
    simp only [decide_eq_true_eq, Decidable.not_not, List.mem_append]
    by_cases hr : a ∈ rows
    · exact Or.inl hr
    · exact Or.inr (List.mem_filter.mpr ⟨ha, decide_eq_true hr⟩)
  rw [hnil, List.append_nil]

/-! ## Lemmas about `add_categories` -/

/-- Entries removed by a filter that cannot satisfy the search predicate do
not change the result of `find?`. -/
theorem find?_filter_of_imp (l : List α) (p q : α → Bool)
    (h : ∀ x ∈ l, p x = true → q x = true) :
    (l.filter q).find? p = l.find? p := by
  induction l with
  | nil => rfl
  | cons a tl ih =>
    have ih' := ih (fun x hx => h x (List.mem_cons_of_mem a hx))
    by_cases hq : q a
    · rw [List.filter_cons_of_pos hq]
      by_cases hp : p a
      · rw [List.find?_cons_of_pos _ hp, List.find?_cons_of_pos _ hp]
      · rw [List.find?_cons_of_neg _ (by simp [hp]), List.find?_cons_of_neg _ (by simp [hp])]
        exact ih'
    · have hp : ¬ p a = true := fun hpa => hq (h a (List.mem_cons_self a tl) hpa)
      rw [List.filter_cons_of_neg (by simpa using hq), List.find?_cons_of_neg _ (by simpa using hp)]
      exact ih'

/-- Characterization of the update pass of `add_categories`, for a table
whose keys are unique (the reachable states: `create` writes the entries of
a dict, and `add_categories` preserves key uniqueness): every row whose key
is among the input keys gets the input value written in place, every other
row is untouched, and the pending entries that survive are exactly those
whose key occurs in no row. -/
theorem updatePass_eq (rows : List (String × String)) :
    ∀ pending, (rows.map Prod.fst).Nodup →
      updatePass rows pending
        = (rows.map (fun row =>
              match pending.find? (fun c => decide (row.1 = c.1)) with
              | some c => (row.1, c.2)
              | none => row),
           pending.filter (fun c => !(rows.any (fun row => decide (row.1 = c.1))))) := by
  induction rows with
  | nil =>
    intro pending _
    simp [updatePass]
  | cons row rest ih =>
    intro pending hnd
    rw [List.map_cons, List.nodup_cons] at hnd
    obtain ⟨hkey, hnd'⟩ := hnd
    cases hfind : pending.find? (fun c => decide (row.1 = c.1)) with
    | none =>
      have hnone : ∀ c ∈ pending, decide (row.1 = c.1) = false := by
        intro c hc
        simpa using List.find?_eq_none.mp hfind c hc
      simp only [updatePass, hfind]
      rw [ih pending hnd']
      refine Prod.ext ?_ ?_
      · simp only [List.map_cons, hfind]
      · simp only []
        refine List.filter_congr (fun c hc => ?_)
        rw [List.any_cons, hnone c hc, Bool.false_or]
    | some c =>
      have hc_key : row.1 = c.1 := by
        simpa using List.find?_some hfind
      simp only [updatePass, hfind]
      rw [ih (pending.filter (fun c2 => decide (c2.1 ≠ c.1))) hnd']
      refine Prod.ext ?_ ?_
      · simp only [List.map_cons, hfind]
        congr 1
        refine List.map_congr_left (fun x hx => ?_)
        have hxk : x.1 ≠ row.1 := by
          intro hxe
          exact hkey (hxe ▸ List.mem_map_of_mem Prod.fst hx)
        rw [find?_filter_of_imp]
        intro y _ hpy
        have hxy : x.1 = y.1 := by simpa using hpy
        simp only [decide_eq_true_eq]
        rw [← hxy, ← hc_key]
        exact hxk
      · simp only [List.filter_filter]
        refine List.filter_congr (fun c2 _ => ?_)
        rw [List.any_cons, Bool.not_or, ← hc_key]
        by_cases hx : row.1 = c2.1
        · simp [hx]
        · simp [hx, Ne.symm hx]

/-- The head of each updated row keeps its key. -/
theorem updatePass_fst (pending : List (String × String)) (row : String × String) :
    (match pending.find? (fun c : String × String => decide (row.1 = c.1)) with
      | some c => (row.1, c.2)
      | none => row).1 = row.1 := by
  cases pending.find? (fun c : String × String => decide (row.1 = c.1)) <;> rfl

/-- The rows after `add_categories` on key-unique states: upsert semantics. -/
theorem add_categories_eq (t : CatsTable) (cats : List (String × String))
    (h : (t.rows.map Prod.fst).Nodup) :
    (add_categories t cats).rows
      = t.rows.map (fun row =>
            match cats.find? (fun c => decide (row.1 = c.1)) with
            | some c => (row.1, c.2)
            | none => row)
        ++ cats.filter (fun c => !(t.rows.any (fun row => decide (row.1 = c.1)))) := by
  show (updatePass t.rows cats).1 ++ (updatePass t.rows cats).2 = _
  rw [updatePass_eq t.rows cats h]

/-- Key uniqueness is preserved by `add_categories` when the input mapping has
unique keys (a Python dict always does). -/
theorem add_categories_nodup (t : CatsTable) (cats : List (String × String))
    (h : (t.rows.map Prod.fst).Nodup) (hc : (cats.map Prod.fst).Nodup) :
    ((add_categories t cats).rows.map Prod.fst).Nodup := by
  rw [add_categories_eq t cats h, List.map_append]
  have hmap : (t.rows.map (fun row =>
      match cats.find? (fun c => decide (row.1 = c.1)) with
      | some c => (row.1, c.2)
      | none => row)).map Prod.fst = t.rows.map Prod.fst := by
    rw [List.map_map]
    exact List.map_congr_left (fun row _ => updatePass_fst cats row)
  rw [hmap]
  refine List.Nodup.append h ?_ ?_
  · exact ((List.filter_sublist cats).map Prod.fst).nodup hc
  · intro k hk1 hk2
    obtain ⟨c2, hc2f, hc2e⟩ := List.mem_map.mp hk2
    have hpred := List.of_mem_filter hc2f
    obtain ⟨row, hrow, hrowk⟩ := List.mem_map.mp hk1
    rw [Bool.not_eq_true', List.any_eq_false] at hpred
    have := hpred row hrow
    rw [hrowk, hc2e] at this
    simp at this

/-! ## Lemmas about `dictOfPairs` and the checked append -/

theorem foldl_dictInsert_eq (rows : List (String × String)) :
    ∀ acc : List (String × String), ((acc ++ rows).map Prod.fst).Nodup →
      rows.foldl
        (fun d p =>
          if d.any (fun q => decide (q.1 = p.1)) then
            d.map (fun q => if q.1 = p.1 then p else q)
          else d ++ [p])
        acc
        = acc ++ rows := by
  induction rows with
  | nil => intro acc _; simp
  | cons p rest ih =>
    intro acc hnd
    have hkey : ∀ q ∈ acc, q.1 ≠ p.1 := by
      intro q hq hqe
      rw [List.map_append, List.nodup_append] at hnd
      exact hnd.2.2 (List.mem_map_of_mem Prod.fst hq)
        (by rw [hqe, List.map_cons]; exact List.mem_cons_self p.1 _)
    have hany : acc.any (fun q => decide (q.1 = p.1)) = false := by
      rw [List.any_eq_false]
      intro q hq
      simpa using hkey q hq
    rw [List.foldl_cons, if_neg (by simp [hany])]
    rw [ih (acc ++ [p]) (by simpa [List.append_assoc] using hnd)]
    simp

/-- A Python dict built from rows with unique keys is those rows in order. -/
theorem dictOfPairs_eq_self (rows : List (String × String))
    (h : (rows.map Prod.fst).Nodup) : dictOfPairs rows = rows := by
  have := foldl_dictInsert_eq rows [] (by simpa using h)
  simpa [dictOfPairs] using this

/-- The checked append loop fails as soon as it reaches an over-wide tag. -/
theorem foldlM_appendTagChecked_error (l : List String) :
    ∀ acc, (∃ x ∈ l, tagWidth < x.length) →
      ∃ rows, l.foldlM appendTagChecked acc
        = .error (PyError.schemaViolation, rows) := by
  induction l with
  | nil => intro acc h; simp at h
  | cons a tl ih =>
    intro acc h
    rw [List.foldlM_cons]
    by_cases ha : a.length ≤ tagWidth
    · rw [appendTagChecked, if_pos ha]
      show ∃ rows, tl.foldlM appendTagChecked (acc ++ [a])
        = .error (PyError.schemaViolation, rows)
      apply ih
      obtain ⟨x, hx, hxl⟩ := h
      rcases List.mem_cons.mp hx with rfl | hx'
      · exact absurd ha (by omega)
      · exact ⟨x, hx', hxl⟩
    · rw [appendTagChecked, if_neg ha]
      exact ⟨acc, rfl⟩

/-- Adding one over-wide tag to a well-formed table fails with
`SchemaViolation` and leaves the table rows unchanged. -/
theorem add_tags_checked_single_overlong (t : TagsTable) (tag : String)
    (hw : tagWidth < tag.length) (hr : ∀ r ∈ t.rows, r.length ≤ tagWidth) :
    add_tags_checked t [tag] = .error (PyError.schemaViolation, t.rows) := by
  have hmem : tag ∉ t.rows := fun hm => absurd (hr tag hm) (by omega)
  have hdedup : ([tag] : List String).dedup = [tag] := by
    rw [List.dedup_cons_of_not_mem (List.not_mem_nil tag), List.dedup_nil]
  simp only [add_tags_checked, hdedup]
  rw [List.filter_cons_of_pos (by simpa using hmem), List.filter_nil]
  rw [List.foldlM_cons, appendTagChecked, if_neg (by omega)]
  rfl

/-- Any `add_tags` call containing an over-wide tag errors out (the checked
append never truncates silently). -/
theorem add_tags_checked_overlong_mem (t : TagsTable) (ts : List String)
    (h : ∃ x ∈ ts, tagWidth < x.length) (hr : ∀ r ∈ t.rows, r.length ≤ tagWidth) :
    ∃ rows, add_tags_checked t ts = .error (PyError.schemaViolation, rows) := by
  obtain ⟨x, hx, hxl⟩ := h
  have hmem : x ∉ t.rows := fun hm => absurd (hr x hm) (by omega)
  have hres : x ∈ ts.dedup.filter (fun tag => decide (tag ∉ t.rows)) :=
    List.mem_filter.mpr ⟨List.mem_dedup.mpr hx, by simpa using hmem⟩
  obtain ⟨rows, hrows⟩ := foldlM_appendTagChecked_error _ t.rows ⟨x, hres, hxl⟩
  refine ⟨rows, ?_⟩
  simp only [add_tags_checked, hrows]

/-! ## Claim theorems -/

/-- C1: the claim says the `_read`/`_write` wrappers close the file handle on
every exit path, including when the wrapped operation raises.  Evaluating the
embedded wrappers: on the error path the original failure is re-raised
unchanged, but the handle is NOT closed (there is no try/finally around
`out = func(...)`, so `self.handle.close()` is unreachable when `func`
raises); only the success path closes the handle. -/
theorem claim_C1_scope_wrapper (e : PyError) (v : Nat) :
    (readScope (Except.error e : Except PyError Nat)).result = .error e ∧
    (readScope (Except.error e : Except PyError Nat)).handleOpen = true ∧
    (writeScope (Except.error e : Except PyError Nat)).result = .error e ∧
    (writeScope (Except.error e : Except PyError Nat)).handleOpen = true ∧
    (readScope (Except.ok v : Except PyError Nat)).handleOpen = false ∧
    (writeScope (Except.ok v : Except PyError Nat)).handleOpen = false :=
  ⟨rfl, rfl, rfl, rfl, rfl, rfl⟩

/-- C2: a non-purge `del_tags` (`del_categories`) call whose matching rows
are a strict subset of the table (witnessed by one non-matching row) removes
exactly the rows whose tag (key) is among the given strings and keeps all
others, via descending-shift index deletion. -/
theorem claim_C2_delete_exact_rows (t : TagsTable) (ct : CatsTable)
    (tags keys : List String)
    (ht : ∃ r ∈ t.rows, r ∉ tags) (hc : ∃ r ∈ ct.rows, r.1 ∉ keys) :
    (del_tags t tags false).rows = t.rows.filter (fun r => decide (r ∉ tags)) ∧
    (del_categories ct keys false).rows
      = ct.rows.filter (fun r => decide (r.1 ∉ keys)) := by
  constructor
  · rw [del_tags_nonpurge t tags ht]
  · rw [del_categories_nonpurge ct keys hc]

/-- Witness for C2, including the spec's own example: tags a,b,c,d with
b,d deleted leaves exactly a,c. -/
theorem claim_C2_delete_exact_rows_witness :
    (del_tags { generation := 0, rows := ["a", "b", "c", "d"] } ["b", "d"] false).rows
      = ["a", "c"] ∧
    (del_categories { generation := 0, rows := [("k1", "v1"), ("k2", "v2")] } ["k1"] false).rows
      = [("k2", "v2")] := by
  have h := claim_C2_delete_exact_rows
    { generation := 0, rows := ["a", "b", "c", "d"] }
    { generation := 0, rows := [("k1", "v1"), ("k2", "v2")] }
    ["b", "d"] ["k1"] (by decide) (by decide)
  refine ⟨?_, ?_⟩
  · rw [h.1]; rfl
  · rw [h.2]; rfl

/-- C3 counterexample: the claim says `create` deduplicates the input tags
(one row per distinct tag).  In the source the tags loop appends one row per
input element with no deduplication: creating with tags `["a", "a"]` writes
two rows, and `get_tags` right after returns a list with a duplicate. -/
theorem claim_C3_counterexample :
    (ContainerFile_create "u" "Sim" none "/tmp" none ["a", "a"] []).tags.rows.length = 2 ∧
    ¬ (ContainerFile_create "u" "Sim" none "/tmp" none ["a", "a"] []).tags.rows.Nodup ∧
    (["a", "a"] : List String).dedup.length = 1 ∧
    get_tags (ContainerFile_create "u" "Sim" none "/tmp" none ["a", "a"] []) = ["a", "a"] := by
  refine ⟨rfl, by decide, by decide, rfl⟩

/-- C3 (amended): `create` writes exactly one meta row carrying the generated
identifier, exactly one coordinator row, one tag row per input list element
(in order, duplicates preserved — NOT deduplicated), and one category row per
entry of the input mapping (a dict, so keys are unique and last-value-wins is
vacuous); `get_tags` immediately after returns exactly the input tag list and
`get_categories` returns exactly the input mapping. -/
theorem claim_C3_create_round_trip (uuid classname : String) (name : Option String)
    (location : String) (coordinator : Option String)
    (tags : List String) (cats : List (String × String))
    (hk : (cats.map Prod.fst).Nodup) :
    (ContainerFile_create uuid classname name location coordinator tags cats).meta
      = [{ uuid := uuid, name := name.getD classname, container := classname,
           location := location }] ∧
    (ContainerFile_create uuid classname name location coordinator tags cats).coordinator
      = [coordinator] ∧
    (ContainerFile_create uuid classname name location coordinator tags cats).tags.rows
      = tags ∧
    (ContainerFile_create uuid classname name location coordinator tags cats).categories.rows
      = cats ∧
    get_tags (ContainerFile_create uuid classname name location coordinator tags cats)
      = tags ∧
    get_categories (ContainerFile_create uuid classname name location coordinator tags cats)
      = cats := by
  refine ⟨rfl, rfl, rfl, rfl, rfl, ?_⟩
  show dictOfPairs cats = cats
  exact dictOfPairs_eq_self cats hk

/-- Witness for C3 (amended) at a concrete creation. -/
theorem claim_C3_create_round_trip_witness :
    get_tags (ContainerFile_create "u" "Sim" none "/tmp" none ["a", "b"] [("k", "v")])
      = ["a", "b"] ∧
    get_categories (ContainerFile_create "u" "Sim" none "/tmp" none ["a", "b"] [("k", "v")])
      = [("k", "v")] := by
  have h := claim_C3_create_round_trip "u" "Sim" none "/tmp" none ["a", "b"] [("k", "v")]
    (by decide)
  exact ⟨h.2.2.2.2.1, h.2.2.2.2.2⟩

/-- C4: starting from a duplicate-free tags table, any sequence of `add_tags`
calls leaves the table duplicate-free, and repeating an identical `add_tags`
call is a no-op (the second call appends nothing). -/
theorem claim_C4_add_tags_unique_idempotent :
    (∀ (t : TagsTable) (calls : List (List String)),
        t.rows.Nodup → (calls.foldl add_tags t).rows.Nodup) ∧
    (∀ (t : TagsTable) (tags : List String),
        add_tags (add_tags t tags) tags = add_tags t tags) :=
  ⟨fun t calls h => add_tags_foldl_nodup calls t h, add_tags_idem⟩

/-- Witness for C4: repeated submissions of the same tag across calls. -/
theorem claim_C4_add_tags_unique_idempotent_witness :
    (([["a", "a", "b"], ["b", "c"], ["a"]].foldl add_tags
        { generation := 0, rows := [] }).rows.Nodup) ∧
    add_tags (add_tags { generation := 0, rows := [] } ["x"]) ["x"]
      = add_tags { generation := 0, rows := [] } ["x"] :=
  ⟨claim_C4_add_tags_unique_idempotent.1 { generation := 0, rows := [] }
      [["a", "a", "b"], ["b", "c"], ["a"]] (by decide),
   claim_C4_add_tags_unique_idempotent.2 { generation := 0, rows := [] } ["x"]⟩

/-- C5: `add_categories` upserts — on a key-unique table, every row whose key
matches an input key gets the input value written in place (and that key is
not appended again), keys absent from the table are appended as new rows,
keys stay unique, and `{"k": "v1"}` then `{"k": "v2"}` leaves exactly one row
`("k", "v2")`. -/
theorem claim_C5_add_categories_upsert (t : CatsTable) (cats : List (String × String))
    (h : (t.rows.map Prod.fst).Nodup) (hc : (cats.map Prod.fst).Nodup) :
    ((add_categories t cats).rows
        = t.rows.map (fun row =>
              match cats.find? (fun c => decide (row.1 = c.1)) with
              | some c => (row.1, c.2)
              | none => row)
          ++ cats.filter (fun c => !(t.rows.any (fun row => decide (row.1 = c.1))))) ∧
    ((add_categories t cats).rows.map Prod.fst).Nodup ∧
    (add_categories (add_categories { generation := 0, rows := [] } [("k", "v1")])
        [("k", "v2")]).rows = [("k", "v2")] :=
  ⟨add_categories_eq t cats h, add_categories_nodup t cats h hc, by decide⟩

/-- Witness for C5 at a concrete upsert. -/
theorem claim_C5_add_categories_upsert_witness :
    (add_categories { generation := 0, rows := [("k", "v0"), ("m", "w")] }
        [("k", "v9"), ("n", "x")]).rows
      = [("k", "v9"), ("m", "w"), ("n", "x")] := by
  have h := claim_C5_add_categories_upsert
    { generation := 0, rows := [("k", "v0"), ("m", "w")] }
    [("k", "v9"), ("n", "x")] (by decide) (by decide)
  rw [h.1]; rfl

/-- C6: whenever the matching-row count equals the table's total row count
(whatever the purge flag), the whole table is dropped and recreated empty
(the `generation` bump records the drop/recreate), and the recreated table
remains usable: a,b,c added then deleted leaves an empty table, and a
subsequent `add_tags(["d"])` succeeds. -/
theorem claim_C6_remove_all_recreate (t : TagsTable) (ct : CatsTable)
    (tags keys : List String) (purgeT purgeC : Bool)
    (ht : (matchIndices (fun r => decide (r ∈ tags.dedup)) t.rows).length
      = t.rows.length)
    (hc : (matchIndices (fun r : String × String => decide (r.1 ∈ keys.dedup)) ct.rows).length
      = ct.rows.length) :
    del_tags t tags purgeT = { generation := t.generation + 1, rows := [] } ∧
    del_categories ct keys purgeC = { generation := ct.generation + 1, rows := [] } ∧
    (del_tags (add_tags { generation := 0, rows := [] } ["a", "b", "c"])
        ["a", "b", "c"] false).rows = [] ∧
    (add_tags (del_tags (add_tags { generation := 0, rows := [] } ["a", "b", "c"])
        ["a", "b", "c"] false) ["d"]).rows = ["d"] := by
  refine ⟨del_tags_all t tags purgeT ht, del_categories_all ct keys purgeC hc, ?_, ?_⟩
  · decide
  · decide

/-- Witness for C6: every row matches, non-purge call, table dropped and
recreated empty. -/
theorem claim_C6_remove_all_recreate_witness :
    del_tags { generation := 0, rows := ["a"] } ["a"] false
      = { generation := 1, rows := [] } ∧
    del_categories { generation := 0, rows := [("k", "v")] } ["k"] false
      = { generation := 1, rows := [] } := by
  have h := claim_C6_remove_all_recreate
    { generation := 0, rows := ["a"] } { generation := 0, rows := [("k", "v")] }
    ["a"] ["k"] false false (by decide) (by decide)
  exact ⟨h.1, h.2.1⟩

/-- C7: deleting tags (keys) none of which is present never raises — the
embedded operation is a total function with no error outcome on this path —
and never changes the row count, on an empty or populated table. -/
theorem claim_C7_delete_missing_noop (t : TagsTable) (ct : CatsTable)
    (tags keys : List String)
    (ht : ∀ x ∈ tags, x ∉ t.rows) (hc : ∀ x ∈ keys, ∀ r ∈ ct.rows, r.1 ≠ x) :
    (del_tags t tags false).rows.length = t.rows.length ∧
    (del_categories ct keys false).rows.length = ct.rows.length :=
  ⟨del_tags_no_match t tags ht, del_categories_no_match ct keys hc⟩

/-- Witness for C7 on a populated tags table and an empty categories table. -/
theorem claim_C7_delete_missing_noop_witness :
    (del_tags { generation := 0, rows := ["a", "b"] } ["nonexistent"] false).rows.length = 2 ∧
    (del_categories { generation := 0, rows := [] } ["nope"] false).rows.length = 0 := by
  have h := claim_C7_delete_missing_noop
    { generation := 0, rows := ["a", "b"] } { generation := 0, rows := [] }
    ["nonexistent"] ["nope"] (by decide) (by decide)
  exact ⟨h.1, h.2⟩

/-- C8 (storage engine modelled from the spec's §6 interface): adding a tag
longer than the 36-character column width fails with `SchemaViolation`
instead of truncating — for a single-tag call the table rows are exactly as
before the call — and any call containing an over-wide tag errors. -/
theorem claim_C8_width_violation (t : TagsTable) (tag : String) (ts : List String)
    (hw : tagWidth < tag.length)
    (hr : ∀ r ∈ t.rows, r.length ≤ tagWidth)
    (hts : ∃ x ∈ ts, tagWidth < x.length) :
    add_tags_checked t [tag] = .error (PyError.schemaViolation, t.rows) ∧
    ∃ rows, add_tags_checked t ts = .error (PyError.schemaViolation, rows) :=
  ⟨add_tags_checked_single_overlong t tag hw hr,
   add_tags_checked_overlong_mem t ts hts hr⟩

/-- Witness for C8 with a 37-character tag. -/
theorem claim_C8_width_violation_witness :
    add_tags_checked { generation := 0, rows := ["short"] }
        ["aaaaaaaaaaaaaaaaaaaaaaaaaaaaaaaaaaaaa"]
      = .error (PyError.schemaViolation, ["short"]) := by
  have h := claim_C8_width_violation { generation := 0, rows := ["short"] }
    "aaaaaaaaaaaaaaaaaaaaaaaaaaaaaaaaaaaaa" ["aaaaaaaaaaaaaaaaaaaaaaaaaaaaaaaaaaaaa"]
    (by decide) (by decide) (by decide)
  exact h.1

/-- C9: `SimFile.__init__` always raises `NameError` on the unbound name
`location` before any file is opened or created, and `SimFile.create`, after
the base create completes and the handle is reopened, raises `AttributeError`
on `exlock` with the handle left open. -/
theorem claim_C9_simfile_broken (filename : String) (logger : Option String)
    (uuid classname : String) (name : Option String) (location : String)
    (coordinator : Option String) (tags : List String)
    (cats : List (String × String)) :
    simFile_init filename logger = (.error (PyError.nameError "location"), false) ∧
    (simFile_create uuid classname name location coordinator tags cats).1
      = .error (PyError.attributeError "exlock") ∧
    (simFile_create uuid classname name location coordinator tags cats).2.1 = true ∧
    (simFile_create uuid classname name location coordinator tags cats).2.2
      = ContainerFile_create uuid classname name location coordinator tags cats :=
  ⟨rfl, rfl, rfl, rfl⟩

/-- C10: a non-purge delete on an empty table takes the remove-all branch:
zero matching rows equal the zero total rows, so the table object is dropped
and recreated (generation bump) even though nothing matched; the row count
stays zero, but the call is not a pure no-op on the table object. -/
theorem claim_C10_empty_table_recreate (t : TagsTable) (ct : CatsTable)
    (tags keys : List String) (ht : t.rows = []) (hc : ct.rows = []) :
    del_tags t tags false = { generation := t.generation + 1, rows := [] } ∧
    (del_tags t tags false).rows.length = 0 ∧
    (del_tags t tags false).generation ≠ t.generation ∧
    del_categories ct keys false = { generation := ct.generation + 1, rows := [] } ∧
    (del_categories ct keys false).generation ≠ ct.generation := by
  have h1 := del_tags_empty t tags ht
  have h2 := del_categories_empty ct keys hc
  refine ⟨h1, by rw [h1]; rfl, by rw [h1]; exact Nat.succ_ne_self _, h2,
    by rw [h2]; exact Nat.succ_ne_self _⟩

/-- Witness for C10 on concrete empty tables. -/
theorem claim_C10_empty_table_recreate_witness :
    del_tags { generation := 5, rows := [] } ["x"] false
      = { generation := 6, rows := [] } ∧
    del_categories { generation := 2, rows := [] } ["y"] false
      = { generation := 3, rows := [] } := by
  have h := claim_C10_empty_table_recreate
    { generation := 5, rows := [] } { generation := 2, rows := [] }
    ["x"] ["y"] rfl rfl
  exact ⟨h.1, h.2.2.2.1⟩

end MDS
